import Mathlib

/-!
Verification development for the expired-domain-scan crawler.

The definitions below are a shallow embedding of `api/src/worker.js` and of
the Express server (`scheduleResume`, the `/scan` and `/scan/:id/interrupt`
endpoints).  Network effects (DNS queries, HTTP fetches, robots lookups,
page fetches) are modelled as environments: a record of functions giving,
for each queried name or URL, the outcome the outside world would produce.
The transport capability is modelled at the interface boundary stated in
the specification (a GET either yields a status code and body, or raises a
connection-class error).  Machine-level details that the claims do not
touch (timers, event emission, the stats ticker, punycode conversion) are
omitted; every branch the claims depend on is translated directly from the
JavaScript source.
-/

/-! ## DNS Liveness Oracle (`dnsHasAddresses`, worker.js lines 51-124) -/

/-- Outcome of a single DNS query: a resolved record list, or an error
carrying the resolver's error code (`NXDOMAIN`, `ENOTFOUND`, `ENODATA`,
`SERVFAIL`, `REFUSED`, `EAI_AGAIN`, ...). -/
inductive DnsAnswer where
  | ok (records : List String)
  | err (code : String)
deriving DecidableEq, Repr

/-- A query "succeeded with data" when it resolved a non-empty record list;
this is the `addrs.length > 0` / `a && a.length` test of the source. -/
def DnsAnswer.isPos : DnsAnswer → Bool
  | .ok rs => decide (0 < rs.length)
  | .err _ => false

/-- The resolver environment: what each kind of DNS query returns for each
queried name.  `lookup` is the OS-level `dns.lookup`, the others are the
explicit `dns.resolve4/resolve6/resolveCname/resolveAny` queries. -/
structure DnsEnv where
  lookup : String → DnsAnswer
  resolve4 : String → DnsAnswer
  resolve6 : String → DnsAnswer
  resolveCname : String → DnsAnswer
  resolveAny : String → DnsAnswer

/-- Return value of `dnsHasAddresses`: `{ hasDns, nxDomain }` (the `detail`
trace is diagnostic only and is not modelled). -/
structure DnsResult where
  hasDns : Bool
  nxDomain : Bool
deriving DecidableEq, Repr

/-- Step 3 of `dnsHasAddresses`: a CNAME answer with at least one target,
whose first target resolves to at least one IPv4 or IPv6 address. -/
def cnameStep (env : DnsEnv) (domain : String) : Bool :=
  match env.resolveCname domain with
  | .ok (target :: _) => (env.resolve4 target).isPos || (env.resolve6 target).isPos
  | _ => false

/-- `dnsHasAddresses(domain)` from worker.js: tries `dns.lookup`, then
`resolve4`, `resolve6`, then CNAME plus resolution of the CNAME target,
and finally `resolveAny`; only a `NXDOMAIN`/`ENOTFOUND` failure of the
final `resolveAny` yields `nxDomain = true`. -/
def dnsHasAddresses (env : DnsEnv) (domain : String) : DnsResult :=
  if (env.lookup domain).isPos then ⟨true, false⟩
  else if (env.resolve4 domain).isPos then ⟨true, false⟩
  else if (env.resolve6 domain).isPos then ⟨true, false⟩
  else if cnameStep env domain then ⟨true, false⟩
  else
    match env.resolveAny domain with
    | .ok rs => if 0 < rs.length then ⟨true, false⟩ else ⟨false, false⟩
    | .err code =>
        if code = "NXDOMAIN" ∨ code = "ENOTFOUND" then ⟨false, true⟩
        else ⟨false, false⟩

/-! ## HTTP Reachability Prober (`fetchWithHeuristics`, worker.js lines 126-174) -/

/-- Outcome of one transport-level GET, at the interface boundary the spec
assigns to the transport capability: a response with status code and body
(for any status code value), or a connection-class error code. -/
inductive FetchOutcome where
  | ok (statusCode : Nat) (body : String)
  | err (code : String)
deriving DecidableEq, Repr

/-- The HTTP environment: what a GET of each URL returns. -/
structure HttpEnv where
  fetch : String → FetchOutcome

/-- The parked/for-sale lander phrases of worker.js. -/
def parkedPhrases : List String :=
  ["domain for sale", "buy this domain", "this domain is parked", "sedo",
   "dan.com", "afternic", "parkingcrew", "bodis", "hugedomains"]

/-- Substring test: `s` contains `p` (for non-empty `p`) exactly when
splitting on `p` produces more than one piece; stands in for the
JavaScript `body.includes(p)`. -/
def containsSub (s p : String) : Bool := decide (1 < (s.splitOn p).length)

/-- The parked heuristic: first 5000 characters of the body, lower-cased,
tested against each parked phrase. -/
def isParkedBody (body : String) : Bool :=
  parkedPhrases.any (fun p => containsSub ((body.take 5000).toLower) p)

/-- Result of `fetchWithHeuristics`: `{ ok: true, statusCode, parked }` or
`{ ok: false, error }`. -/
inductive HttpProbe where
  | ok (statusCode : Nat) (parked : Bool)
  | err (code : String)
deriving DecidableEq, Repr

/-- One protocol attempt (`tryFetch` in the source): GET `proto://domain`;
a response of any status code is a success carrying the parked flag. -/
def tryFetch (env : HttpEnv) (proto domain : String) : Except String HttpProbe :=
  match env.fetch (proto ++ "://" ++ domain) with
  | .ok status body => .ok (.ok status (isParkedBody body))
  | .err code => .error code

/-- `fetchWithHeuristics(domain)`: HTTPS first, HTTP on any HTTPS failure;
when both fail the error code of the HTTP attempt is reported (defaulting
to `HTTP_ERROR` when the error carried no code). -/
def fetchWithHeuristics (env : HttpEnv) (domain : String) : HttpProbe :=
  match tryFetch env "https" domain with
  | .ok r => r
  | .error _ =>
    match tryFetch env "http" domain with
    | .ok r => r
    | .error code => .err (if code = "" then "HTTP_ERROR" else code)

/-! ## Domain Liveness Classifier (`checkDomain`, worker.js lines 186-225) -/

/-- Final verdict of `checkDomain`, plus the `pending` placeholder that
`start()` substitutes for a never-recorded result. -/
inductive CheckResult where
  | noDns (code : String)
  | ok (httpStatus : Nat) (parked : Bool)
  | dnsError (code : String)
  | httpError (code : String)
  | pending
deriving DecidableEq, Repr

/-- `checkDomain(domain)`: DNS first; a confirmed `nxDomain` returns
`no-dns` immediately, otherwise the HTTP prober runs and its success
yields `ok`; on HTTP failure an inconclusive DNS signal yields
`dns-error`, a positive DNS signal yields `http-error`.  (The punycode
ASCII conversion is identity at this level: domains are modelled in their
ASCII form.) -/
def checkDomain (denv : DnsEnv) (henv : HttpEnv) (domain : String) : CheckResult :=
  let d := dnsHasAddresses denv domain
  if !d.hasDns && d.nxDomain then .noDns "NXDOMAIN"
  else
    match fetchWithHeuristics henv domain with
    | .ok s p => .ok s p
    | .err c =>
        if !d.hasDns && !d.nxDomain then .dnsError "INCONCLUSIVE_DNS"
        else .httpError c

/-! ## Characterization of the DNS oracle -/

/-- The oracle reports a positive record exactly when one of its five
query steps (in source order) produced a non-empty answer. -/
lemma dns_hasDns_iff (env : DnsEnv) (d : String) :
    (dnsHasAddresses env d).hasDns = true ↔
      ((env.lookup d).isPos = true ∨ (env.resolve4 d).isPos = true ∨
       (env.resolve6 d).isPos = true ∨ cnameStep env d = true ∨
       (env.resolveAny d).isPos = true) := by
  cases h1 : (env.lookup d).isPos <;> cases h2 : (env.resolve4 d).isPos <;>
    cases h3 : (env.resolve6 d).isPos <;> cases h4 : cnameStep env d <;>
    simp [dnsHasAddresses, h1, h2, h3, h4] <;>
    cases h5 : env.resolveAny d with
  | ok rs =>
      by_cases h6 : 0 < rs.length <;> simp [DnsAnswer.isPos, h6]
  | err c =>
      by_cases h6 : c = "NXDOMAIN" ∨ c = "ENOTFOUND" <;>
        simp [DnsAnswer.isPos, h6]

/-- The oracle reports `nxDomain` exactly when the first four steps all
failed to produce addresses and the final catch-all `resolveAny` query
errored with a name-does-not-exist class code. -/
lemma dns_nx_iff (env : DnsEnv) (d : String) :
    (dnsHasAddresses env d).nxDomain = true ↔
      ((env.lookup d).isPos = false ∧ (env.resolve4 d).isPos = false ∧
       (env.resolve6 d).isPos = false ∧ cnameStep env d = false ∧
       ∃ c, env.resolveAny d = DnsAnswer.err c ∧
            (c = "NXDOMAIN" ∨ c = "ENOTFOUND")) := by
  cases h1 : (env.lookup d).isPos <;> cases h2 : (env.resolve4 d).isPos <;>
    cases h3 : (env.resolve6 d).isPos <;> cases h4 : cnameStep env d <;>
    simp [dnsHasAddresses, h1, h2, h3, h4] <;>
    cases h5 : env.resolveAny d with
  | ok rs =>
      by_cases h6 : 0 < rs.length <;> simp [h6]
  | err c =>
      by_cases h6 : c = "NXDOMAIN" ∨ c = "ENOTFOUND" <;> simp [h6]

/-- The oracle is inconclusive exactly when every step failed to produce
addresses and the catch-all error (when the catch-all errored at all) was
not of the name-does-not-exist class. -/
lemma dns_inconclusive_iff (env : DnsEnv) (d : String) :
    dnsHasAddresses env d = ⟨false, false⟩ ↔
      ((env.lookup d).isPos = false ∧ (env.resolve4 d).isPos = false ∧
       (env.resolve6 d).isPos = false ∧ cnameStep env d = false ∧
       (env.resolveAny d).isPos = false ∧
       ∀ c, env.resolveAny d = DnsAnswer.err c →
            ¬(c = "NXDOMAIN" ∨ c = "ENOTFOUND")) := by
  cases h1 : (env.lookup d).isPos <;> cases h2 : (env.resolve4 d).isPos <;>
    cases h3 : (env.resolve6 d).isPos <;> cases h4 : cnameStep env d <;>
    simp [dnsHasAddresses, h1, h2, h3, h4] <;>
    cases h5 : env.resolveAny d with
  | ok rs =>
      by_cases h6 : 0 < rs.length <;> simp [DnsAnswer.isPos, h6]
  | err c =>
      by_cases h6 : c = "NXDOMAIN" ∨ c = "ENOTFOUND" <;>
        simp [DnsAnswer.isPos, h6] <;> tauto

/-- Claim C5: the DNS oracle runs its queries in the fixed source order —
general lookup, explicit IPv4, explicit IPv6, CNAME plus recursive lookup
of the alias target, then the catch-all any-record query — reporting a
record at the first step with a non-empty answer; when every step fails it
reports `nxDomain` exactly when the catch-all errored with a
name-does-not-exist class code (`NXDOMAIN`/`ENOTFOUND`), and the
inconclusive state `⟨false, false⟩` for every other failure class. -/
theorem c5_dns_oracle_characterization (env : DnsEnv) (d : String) :
    ((dnsHasAddresses env d).hasDns = true ↔
      ((env.lookup d).isPos = true ∨ (env.resolve4 d).isPos = true ∨
       (env.resolve6 d).isPos = true ∨ cnameStep env d = true ∨
       (env.resolveAny d).isPos = true))
    ∧ ((dnsHasAddresses env d).nxDomain = true ↔
      ((env.lookup d).isPos = false ∧ (env.resolve4 d).isPos = false ∧
       (env.resolve6 d).isPos = false ∧ cnameStep env d = false ∧
       ∃ c, env.resolveAny d = DnsAnswer.err c ∧
            (c = "NXDOMAIN" ∨ c = "ENOTFOUND")))
    ∧ (dnsHasAddresses env d = ⟨false, false⟩ ↔
      ((env.lookup d).isPos = false ∧ (env.resolve4 d).isPos = false ∧
       (env.resolve6 d).isPos = false ∧ cnameStep env d = false ∧
       (env.resolveAny d).isPos = false ∧
       ∀ c, env.resolveAny d = DnsAnswer.err c →
            ¬(c = "NXDOMAIN" ∨ c = "ENOTFOUND"))) :=
  ⟨dns_hasDns_iff env d, dns_nx_iff env d, dns_inconclusive_iff env d⟩

/-- A resolver environment where every query reports the name absent. -/
def dnsEnvNx : DnsEnv :=
  { lookup := fun _ => .err "ENOTFOUND", resolve4 := fun _ => .err "ENOTFOUND",
    resolve6 := fun _ => .err "ENOTFOUND",
    resolveCname := fun _ => .err "ENOTFOUND",
    resolveAny := fun _ => .err "NXDOMAIN" }

/-- Witness for C5 at a concrete resolver environment. -/
theorem c5_witness : (dnsHasAddresses dnsEnvNx "gone.example").nxDomain = true :=
  (c5_dns_oracle_characterization dnsEnvNx "gone.example").2.1.mpr
    ⟨rfl, rfl, rfl, rfl, "NXDOMAIN", rfl, Or.inl rfl⟩

/-! ## Claim C1: `no-dns` iff confirmed DNS absence, with no HTTP probe -/

/-- Claim C1: `checkDomain` returns `no-dns` exactly when the DNS oracle
reported confirmed absence (`hasDns = false`, `nxDomain = true`); in that
case the result is the same for every HTTP environment (observationally:
no HTTP probe is consulted), and the confirmed absence itself arises only
from a name-does-not-exist class failure of the catch-all `resolveAny`
query. -/
theorem c1_no_dns_iff_confirmed_absent (denv : DnsEnv) (henv : HttpEnv)
    (d : String) :
    ((checkDomain denv henv d = CheckResult.noDns "NXDOMAIN") ↔
      dnsHasAddresses denv d = ⟨false, true⟩)
    ∧ (dnsHasAddresses denv d = ⟨false, true⟩ →
        ∀ henv' : HttpEnv,
          checkDomain denv henv' d = CheckResult.noDns "NXDOMAIN")
    ∧ ((dnsHasAddresses denv d).nxDomain = true →
        ∃ c, denv.resolveAny d = DnsAnswer.err c ∧
             (c = "NXDOMAIN" ∨ c = "ENOTFOUND")) := by
  refine ⟨?_, ?_, ?_⟩
  · cases hd : dnsHasAddresses denv d with
    | mk h n =>
      cases h <;> cases n <;>
        simp [checkDomain, hd] <;>
        cases hf : fetchWithHeuristics henv d <;> simp [hf]
  · intro hd henv'
    simp [checkDomain, hd]
  · intro hn
    exact ((dns_nx_iff denv d).mp hn).2.2.2.2

/-- An HTTP environment in which nothing answers. -/
def httpEnvDead : HttpEnv := { fetch := fun _ => .err "ECONNREFUSED" }

/-- Witness for C1: with every resolver step reporting the name absent,
the classifier returns `no-dns` under an HTTP environment it never uses. -/
theorem c1_witness :
    checkDomain dnsEnvNx httpEnvDead "gone.example" =
      CheckResult.noDns "NXDOMAIN" :=
  (c1_no_dns_iff_confirmed_absent dnsEnvNx httpEnvDead "gone.example").2.1
    (by decide) httpEnvDead

/-! ## Claim C2: HTTP prober reachability semantics -/

/-- Claim C2: the prober returns a success with the status code of the
first protocol (HTTPS, then HTTP) whose server answered, for every status
code value (4xx and 5xx included), and returns a failure only when both
protocol attempts fail at the connection level. -/
theorem c2_http_prober_reachability (henv : HttpEnv) (d : String) :
    (∀ s b, henv.fetch ("https://" ++ d) = FetchOutcome.ok s b →
        fetchWithHeuristics henv d = HttpProbe.ok s (isParkedBody b))
    ∧ (∀ c s b, henv.fetch ("https://" ++ d) = FetchOutcome.err c →
        henv.fetch ("http://" ++ d) = FetchOutcome.ok s b →
        fetchWithHeuristics henv d = HttpProbe.ok s (isParkedBody b))
    ∧ (∀ c c', henv.fetch ("https://" ++ d) = FetchOutcome.err c →
        henv.fetch ("http://" ++ d) = FetchOutcome.err c' →
        fetchWithHeuristics henv d =
          HttpProbe.err (if c' = "" then "HTTP_ERROR" else c'))
    ∧ (∀ e, fetchWithHeuristics henv d = HttpProbe.err e →
        ∃ c c', henv.fetch ("https://" ++ d) = FetchOutcome.err c ∧
                henv.fetch ("http://" ++ d) = FetchOutcome.err c') := by
  refine ⟨?_, ?_, ?_, ?_⟩
  · intro s b h
    simp [fetchWithHeuristics, tryFetch, h]
  · intro c s b h1 h2
    simp [fetchWithHeuristics, tryFetch, h1, h2]
  · intro c c' h1 h2
    simp [fetchWithHeuristics, tryFetch, h1, h2]
  · intro e he
    cases h1 : henv.fetch ("https://" ++ d) with
    | ok s b => simp [fetchWithHeuristics, tryFetch, h1] at he
    | err c =>
      cases h2 : henv.fetch ("http://" ++ d) with
      | ok s b => simp [fetchWithHeuristics, tryFetch, h1, h2] at he
      | err c' => exact ⟨c, c', rfl, rfl⟩

/-- An HTTP environment whose HTTPS endpoint answers 404 and whose HTTP
endpoint refuses connections. -/
def httpEnv404 : HttpEnv :=
  { fetch := fun u =>
      if u = "https://err.example" then .ok 404 "not found"
      else .err "ECONNREFUSED" }

/-- Witness for C2: a 404 response still counts as the server answering. -/
theorem c2_witness :
    fetchWithHeuristics httpEnv404 "err.example" =
      HttpProbe.ok 404 (isParkedBody "not found") :=
  (c2_http_prober_reachability httpEnv404 "err.example").1 404 "not found"
    (by decide)

/-! ## Crawl engine (`createCrawler` / `crawl`, worker.js lines 227-377)

The scheduler state is modelled explicitly.  A page-crawl task has two
atomic phases, matching the synchronous blocks of `crawl(url)` between its
`await` points: phase A (the budget and visited guards plus `visited.add`)
runs when the task is dequeued, and phase B (link partitioning over the
fetched document) runs when the page fetch completes.  A domain-check task
likewise dequeues first and applies its recorded result later.  The step
relation interleaves these atomic blocks in any order, a superset of the
schedules the bounded `PQueue` can produce. -/

/-- A task in the shared scheduler queue: a page-crawl task or an
outbound-domain check task. -/
inductive CrawlTask where
  | page (url : String)
  | check (domain : String)
deriving DecidableEq, Repr

/-- One record of the `foundOutbound` map: the link URLs seen for the
domain, the internal pages linking to it, and the recorded check result
(absent until the check task completes). -/
structure OutRec where
  urls : List String
  pages : List String
  result : Option CheckResult
deriving DecidableEq, Repr

/-- The crawl environment: seed origin, URL decomposition, the robots
verdict (`false` only for an explicit disallow; fetch/parse errors
fail open in the source), the fetched and normalized absolute links of
each page (`none` is a fetch error), and the liveness verdict each
domain check would record. -/
structure Web where
  origin : String
  urlOrigin : String → String
  urlHost : String → String
  robotsAllowed : String → Bool
  fetchPage : String → Option (List String)
  domainResult : String → CheckResult

/-- Scheduler state: `visited`, the queued tasks, the page tasks past
phase A awaiting their fetch, the domain checks awaiting their result,
and the `foundOutbound` table in insertion order. -/
structure CrawlState where
  visited : List String
  queue : List CrawlTask
  fetching : List String
  checking : List String
  outbound : List (String × OutRec)
deriving DecidableEq, Repr

/-- Set-insertion in JavaScript `Set` order: append unless present. -/
def addUniq (xs : List String) (x : String) : List String :=
  if x ∈ xs then xs else xs ++ [x]

/-- First-occurrence deduplication, the order a JavaScript `Set` built by
insertion iterates in; applied to each page's extracted links. -/
def dedupF (xs : List String) : List String := xs.foldl addUniq []

/-- First record for a domain in the `foundOutbound` table. -/
def findRec : List (String × OutRec) → String → Option OutRec
  | [], _ => none
  | (d, r) :: rest, dom => if d = dom then some r else findRec rest dom

/-- Replace the first record for a domain in the `foundOutbound` table. -/
def setRec : List (String × OutRec) → String → OutRec → List (String × OutRec)
  | [], _, _ => []
  | (d, r) :: rest, dom, r' =>
      if d = dom then (d, r') :: rest else (d, r) :: setRec rest dom r'

/-- Partitioning of one extracted absolute link (the body of the
`for (const l of links)` loop): a same-origin link is enqueued as a page
task when unvisited and within `visited.size + queue.size < maxPages`;
a cross-origin link either creates an outbound record and enqueues one
check task (first discovery of the hostname) or extends the existing
record's URL and page sets. -/
def processLink (e : Web) (mp : Nat) (pageUrl : String) (s : CrawlState)
    (l : String) : CrawlState :=
  if e.urlOrigin l = e.origin then
    if l ∈ s.visited then s
    else if s.visited.length + s.queue.length < mp then
      { s with queue := s.queue ++ [CrawlTask.page l] }
    else s
  else
    match findRec s.outbound (e.urlHost l) with
    | none =>
        { s with
          queue := s.queue ++ [CrawlTask.check (e.urlHost l)],
          outbound := s.outbound ++ [(e.urlHost l, ⟨[l], [pageUrl], none⟩)] }
    | some r =>
        { s with
          outbound := (setRec s.outbound (e.urlHost l)
            ⟨addUniq r.urls l, addUniq r.pages pageUrl, r.result⟩) }

/-- Phase A of `crawl(url)`: refuse when the batch budget is exhausted or
the URL has been visited; otherwise record it visited and start its
fetch. -/
def blockA (mp : Nat) (url : String) (s : CrawlState) : CrawlState :=
  if mp ≤ s.visited.length then s
  else if url ∈ s.visited then s
  else { s with visited := url :: s.visited, fetching := s.fetching ++ [url] }

/-- Phase B of `crawl(url)`: on a robots disallow or a fetch error nothing
changes; otherwise every deduplicated link is partitioned in order. -/
def blockB (e : Web) (mp : Nat) (url : String) (s : CrawlState) : CrawlState :=
  if e.robotsAllowed url then
    match e.fetchPage url with
    | some links => (dedupF links).foldl (processLink e mp url) s
    | none => s
  else s

/-- Completion of a domain-check task: record the result on the domain's
outbound record when it still exists. -/
def runCheck (e : Web) (dom : String) (s : CrawlState) : CrawlState :=
  match findRec s.outbound dom with
  | some r =>
      { s with outbound := (setRec s.outbound dom
          ⟨r.urls, r.pages, some (e.domainResult dom)⟩) }
  | none => s

/-- One scheduler transition: dequeue a page task and run its phase A,
complete an in-flight page fetch with phase B, dequeue a check task, or
complete an in-flight check. -/
inductive Step (e : Web) (mp : Nat) : CrawlState → CrawlState → Prop where
  | startPage (v : List String) (q1 q2 : List CrawlTask) (f c : List String)
      (o : List (String × OutRec)) (url : String) :
      Step e mp ⟨v, q1 ++ CrawlTask.page url :: q2, f, c, o⟩
        (blockA mp url ⟨v, q1 ++ q2, f, c, o⟩)
  | finishPage (v : List String) (q : List CrawlTask) (f1 f2 : List String)
      (c : List String) (o : List (String × OutRec)) (url : String) :
      Step e mp ⟨v, q, f1 ++ url :: f2, c, o⟩
        (blockB e mp url ⟨v, q, f1 ++ f2, c, o⟩)
  | startCheck (v : List String) (q1 q2 : List CrawlTask) (f c : List String)
      (o : List (String × OutRec)) (dom : String) :
      Step e mp ⟨v, q1 ++ CrawlTask.check dom :: q2, f, c, o⟩
        ⟨v, q1 ++ q2, f, c ++ [dom], o⟩
  | finishCheck (v : List String) (q : List CrawlTask) (f : List String)
      (c1 c2 : List String) (o : List (String × OutRec)) (dom : String) :
      Step e mp ⟨v, q, f, c1 ++ dom :: c2, o⟩
        (runCheck e dom ⟨v, q, f, c1 ++ c2, o⟩)

/-- States reachable by a scan of `seed`: the seed page task is the whole
initial backlog, and any interleaving of scheduler transitions follows. -/
inductive Reachable (e : Web) (mp : Nat) (seed : String) : CrawlState → Prop where
  | init : Reachable e mp seed ⟨[], [CrawlTask.page seed], [], [], []⟩
  | step {s s' : CrawlState} : Reachable e mp seed s → Step e mp s s' →
      Reachable e mp seed s'

/-! ## Case analyses of the atomic blocks -/

/-- The four outcomes of partitioning one link, with their guards. -/
lemma processLink_spec (e : Web) (mp : Nat) (pu : String) (s : CrawlState)
    (l : String) :
    processLink e mp pu s l = s
    ∨ (l ∉ s.visited ∧ s.visited.length + s.queue.length < mp ∧
        processLink e mp pu s l = { s with queue := s.queue ++ [CrawlTask.page l] })
    ∨ (findRec s.outbound (e.urlHost l) = none ∧
        processLink e mp pu s l = { s with
          queue := s.queue ++ [CrawlTask.check (e.urlHost l)],
          outbound := s.outbound ++ [(e.urlHost l, ⟨[l], [pu], none⟩)] })
    ∨ (∃ r, findRec s.outbound (e.urlHost l) = some r ∧
        processLink e mp pu s l = { s with
          outbound := (setRec s.outbound (e.urlHost l)
            ⟨addUniq r.urls l, addUniq r.pages pu, r.result⟩) }) := by
  by_cases h0 : e.urlOrigin l = e.origin
  · by_cases h1 : l ∈ s.visited
    · exact Or.inl (by simp [processLink, h0, h1])
    · by_cases h2 : s.visited.length + s.queue.length < mp
      · exact Or.inr (Or.inl ⟨h1, h2, by simp [processLink, h0, h1, h2]⟩)
      · exact Or.inl (by simp [processLink, h0, h1, h2])
  · cases hf : findRec s.outbound (e.urlHost l) with
    | none => exact Or.inr (Or.inr (Or.inl ⟨rfl, by simp [processLink, h0, hf]⟩))
    | some r =>
        exact Or.inr (Or.inr (Or.inr ⟨r, rfl, by simp [processLink, h0, hf]⟩))

/-- The two outcomes of phase A, with their guards. -/
lemma blockA_spec (mp : Nat) (u : String) (s : CrawlState) :
    ((mp ≤ s.visited.length ∨ u ∈ s.visited) ∧ blockA mp u s = s)
    ∨ (s.visited.length < mp ∧ u ∉ s.visited ∧
        blockA mp u s =
          { s with visited := u :: s.visited, fetching := s.fetching ++ [u] }) := by
  by_cases h1 : mp ≤ s.visited.length
  · exact Or.inl ⟨Or.inl h1, by simp [blockA, h1]⟩
  · by_cases h2 : u ∈ s.visited
    · exact Or.inl ⟨Or.inr h2, by simp [blockA, h1, h2]⟩
    · exact Or.inr ⟨by omega, h2, by simp [blockA, h1, h2]⟩

/-- Phase B is a no-op or a fold of `processLink` over some link list. -/
lemma blockB_spec (e : Web) (mp : Nat) (u : String) (s : CrawlState) :
    blockB e mp u s = s ∨
    ∃ ls : List String, blockB e mp u s = List.foldl (processLink e mp u) s ls := by
  by_cases h : e.robotsAllowed u = true
  · cases hf : e.fetchPage u with
    | some links => exact Or.inr ⟨dedupF links, by simp [blockB, h, hf]⟩
    | none => exact Or.inl (by simp [blockB, h, hf])
  · exact Or.inl (by simp [blockB, h])

/-- A completing check is a no-op or records its result on the existing
outbound record. -/
lemma runCheck_spec (e : Web) (dom : String) (s : CrawlState) :
    runCheck e dom s = s ∨
    ∃ r, findRec s.outbound dom = some r ∧
      runCheck e dom s = { s with outbound := (setRec s.outbound dom
        ⟨r.urls, r.pages, some (e.domainResult dom)⟩) } := by
  cases hf : findRec s.outbound dom with
  | none => exact Or.inl (by simp [runCheck, hf])
  | some r => exact Or.inr ⟨r, rfl, by simp [runCheck, hf]⟩

/-! ## Preservation lemmas for link partitioning -/

lemma processLink_visited (e : Web) (mp : Nat) (pu : String) (s : CrawlState)
    (l : String) : (processLink e mp pu s l).visited = s.visited := by
  rcases processLink_spec e mp pu s l with h | ⟨_, _, h⟩ | ⟨_, h⟩ | ⟨r, _, h⟩ <;>
    simp [h]

lemma processLink_fetching (e : Web) (mp : Nat) (pu : String) (s : CrawlState)
    (l : String) : (processLink e mp pu s l).fetching = s.fetching := by
  rcases processLink_spec e mp pu s l with h | ⟨_, _, h⟩ | ⟨_, h⟩ | ⟨r, _, h⟩ <;>
    simp [h]

lemma processLink_checking (e : Web) (mp : Nat) (pu : String) (s : CrawlState)
    (l : String) : (processLink e mp pu s l).checking = s.checking := by
  rcases processLink_spec e mp pu s l with h | ⟨_, _, h⟩ | ⟨_, h⟩ | ⟨r, _, h⟩ <;>
    simp [h]

lemma processLink_queue_len (e : Web) (mp : Nat) (pu : String) (s : CrawlState)
    (l : String) : s.queue.length ≤ (processLink e mp pu s l).queue.length := by
  rcases processLink_spec e mp pu s l with h | ⟨_, _, h⟩ | ⟨_, h⟩ | ⟨r, _, h⟩ <;>
    simp [h]

lemma processLink_new_page (e : Web) (mp : Nat) (pu : String) (s : CrawlState)
    (l u : String) :
    CrawlTask.page u ∈ (processLink e mp pu s l).queue →
    CrawlTask.page u ∈ s.queue ∨
      (u ∉ s.visited ∧ s.visited.length + s.queue.length < mp) := by
  intro hm
  rcases processLink_spec e mp pu s l with h | ⟨h1, h2, h⟩ | ⟨_, h⟩ | ⟨r, _, h⟩
  · rw [h] at hm; exact Or.inl hm
  · rw [h] at hm
    simp at hm
    rcases hm with hm | hm
    · exact Or.inl hm
    · subst hm; exact Or.inr ⟨h1, h2⟩
  · rw [h] at hm
    simp at hm
    exact Or.inl hm
  · rw [h] at hm; exact Or.inl hm

lemma foldPL_visited (e : Web) (mp : Nat) (pu : String) :
    ∀ (ls : List String) (s : CrawlState),
      (ls.foldl (processLink e mp pu) s).visited = s.visited := by
  intro ls
  induction ls with
  | nil => intro s; rfl
  | cons x xs ih =>
      intro s
      rw [List.foldl_cons, ih, processLink_visited]

lemma foldPL_fetching (e : Web) (mp : Nat) (pu : String) :
    ∀ (ls : List String) (s : CrawlState),
      (ls.foldl (processLink e mp pu) s).fetching = s.fetching := by
  intro ls
  induction ls with
  | nil => intro s; rfl
  | cons x xs ih =>
      intro s
      rw [List.foldl_cons, ih, processLink_fetching]

lemma foldPL_checking (e : Web) (mp : Nat) (pu : String) :
    ∀ (ls : List String) (s : CrawlState),
      (ls.foldl (processLink e mp pu) s).checking = s.checking := by
  intro ls
  induction ls with
  | nil => intro s; rfl
  | cons x xs ih =>
      intro s
      rw [List.foldl_cons, ih, processLink_checking]

lemma foldPL_new_page (e : Web) (mp : Nat) (pu : String) :
    ∀ (ls : List String) (s : CrawlState) (u : String),
      CrawlTask.page u ∈ (ls.foldl (processLink e mp pu) s).queue →
      CrawlTask.page u ∈ s.queue ∨
        (u ∉ s.visited ∧ s.visited.length + s.queue.length < mp) := by
  intro ls
  induction ls with
  | nil => intro s u h; exact Or.inl h
  | cons x xs ih =>
      intro s u h
      rw [List.foldl_cons] at h
      rcases ih (processLink e mp pu s x) u h with h' | ⟨hnv, hlt⟩
      · exact processLink_new_page e mp pu s x u h'
      · rw [processLink_visited] at hnv hlt
        have hq := processLink_queue_len e mp pu s x
        exact Or.inr ⟨hnv, by omega⟩

/-! ## Page-task counting and budget lemmas -/

/-- Number of page tasks in a task list. -/
def pageCount : List CrawlTask → Nat
  | [] => 0
  | CrawlTask.page _ :: ts => pageCount ts + 1
  | CrawlTask.check _ :: ts => pageCount ts

lemma pageCount_append (a b : List CrawlTask) :
    pageCount (a ++ b) = pageCount a + pageCount b := by
  induction a with
  | nil => simp [pageCount]
  | cons t ts ih => cases t <;> simp [pageCount, ih] <;> omega

lemma pageCount_le_length (q : List CrawlTask) : pageCount q ≤ q.length := by
  induction q with
  | nil => simp [pageCount]
  | cons t ts ih => cases t <;> simp [pageCount] <;> omega

lemma pageCount_cons_page (u : String) (ts : List CrawlTask) :
    pageCount (CrawlTask.page u :: ts) = pageCount ts + 1 := rfl

lemma pageCount_cons_check (d : String) (ts : List CrawlTask) :
    pageCount (CrawlTask.check d :: ts) = pageCount ts := rfl

lemma mem_append_middle {α : Type} (t : α) {a : α} {q1 q2 : List α}
    (h : a ∈ q1 ++ q2) : a ∈ q1 ++ t :: q2 := by
  rcases List.mem_append.mp h with h | h
  · exact List.mem_append.mpr (Or.inl h)
  · exact List.mem_append.mpr (Or.inr (List.mem_cons_of_mem _ h))

lemma processLink_budget (e : Web) (mp : Nat) (pu : String) (s : CrawlState)
    (l : String) (h : s.visited.length + pageCount s.queue ≤ mp) :
    (processLink e mp pu s l).visited.length +
      pageCount (processLink e mp pu s l).queue ≤ mp := by
  rcases processLink_spec e mp pu s l with hq | ⟨h1, h2, hq⟩ | ⟨_, hq⟩ | ⟨r, _, hq⟩
  · rw [hq]; exact h
  · rw [hq]
    have h3 := pageCount_le_length s.queue
    simp [pageCount_append, pageCount]
    omega
  · rw [hq]
    simp [pageCount_append, pageCount]
    omega
  · rw [hq]
    simpa using h

lemma foldPL_budget (e : Web) (mp : Nat) (pu : String) :
    ∀ (ls : List String) (s : CrawlState),
      s.visited.length + pageCount s.queue ≤ mp →
      (ls.foldl (processLink e mp pu) s).visited.length +
        pageCount (ls.foldl (processLink e mp pu) s).queue ≤ mp := by
  intro ls
  induction ls with
  | nil => intro s h; exact h
  | cons x xs ih =>
      intro s h
      rw [List.foldl_cons]
      exact ih _ (processLink_budget e mp pu s x h)

/-! ## Step-level preservation lemmas -/

lemma step_nodup (e : Web) (mp : Nat) {s s' : CrawlState} (hs : Step e mp s s')
    (h : s.visited.Nodup) : s'.visited.Nodup := by
  cases hs with
  | startPage v q1 q2 f c o url =>
      rcases blockA_spec mp url ⟨v, q1 ++ q2, f, c, o⟩ with ⟨_, hq⟩ | ⟨h1, h2, hq⟩ <;>
        rw [hq]
      · exact h
      · exact List.nodup_cons.mpr ⟨h2, h⟩
  | finishPage v q f1 f2 c o url =>
      rcases blockB_spec e mp url ⟨v, q, f1 ++ f2, c, o⟩ with hq | ⟨ls, hq⟩ <;> rw [hq]
      · exact h
      · rw [foldPL_visited]; exact h
  | startCheck v q1 q2 f c o dom => exact h
  | finishCheck v q f c1 c2 o dom =>
      rcases runCheck_spec e dom ⟨v, q, f, c1 ++ c2, o⟩ with hq | ⟨r, _, hq⟩ <;> rw [hq]
      · exact h
      · exact h

lemma step_new_page (e : Web) (mp : Nat) {s s' : CrawlState}
    (hs : Step e mp s s') (u : String) :
    CrawlTask.page u ∈ s'.queue →
    CrawlTask.page u ∈ s.queue ∨ u ∉ s'.visited := by
  cases hs with
  | startPage v q1 q2 f c o url =>
      intro hm
      rcases blockA_spec mp url ⟨v, q1 ++ q2, f, c, o⟩ with ⟨_, hq⟩ | ⟨h1, h2, hq⟩ <;>
        rw [hq] at hm
      · exact Or.inl (mem_append_middle _ hm)
      · exact Or.inl (mem_append_middle _ hm)
  | finishPage v q f1 f2 c o url =>
      intro hm
      rcases blockB_spec e mp url ⟨v, q, f1 ++ f2, c, o⟩ with hq | ⟨ls, hq⟩ <;>
        rw [hq] at hm ⊢
      · exact Or.inl hm
      · rcases foldPL_new_page e mp url ls ⟨v, q, f1 ++ f2, c, o⟩ u hm with h' | ⟨hnv, _⟩
        · exact Or.inl h'
        · rw [foldPL_visited]
          exact Or.inr hnv
  | startCheck v q1 q2 f c o dom =>
      intro hm
      exact Or.inl (mem_append_middle _ hm)
  | finishCheck v q f c1 c2 o dom =>
      intro hm
      rcases runCheck_spec e dom ⟨v, q, f, c1 ++ c2, o⟩ with hq | ⟨r, _, hq⟩ <;>
        rw [hq] at hm
      · exact Or.inl hm
      · simp at hm
        exact Or.inl hm

lemma step_full_frozen (e : Web) (mp : Nat) {s s' : CrawlState}
    (hs : Step e mp s s') (h : mp ≤ s.visited.length) : s'.visited = s.visited := by
  cases hs with
  | startPage v q1 q2 f c o url =>
      rcases blockA_spec mp url ⟨v, q1 ++ q2, f, c, o⟩ with ⟨_, hq⟩ | ⟨h1, h2, hq⟩
      · rw [hq]
      · simp at h h1
        omega
  | finishPage v q f1 f2 c o url =>
      rcases blockB_spec e mp url ⟨v, q, f1 ++ f2, c, o⟩ with hq | ⟨ls, hq⟩
      · rw [hq]
      · rw [hq, foldPL_visited]
  | startCheck v q1 q2 f c o dom => rfl
  | finishCheck v q f c1 c2 o dom =>
      rcases runCheck_spec e dom ⟨v, q, f, c1 ++ c2, o⟩ with hq | ⟨r, _, hq⟩
      · rw [hq]
      · rw [hq]

lemma step_visited_le (e : Web) (mp : Nat) {s s' : CrawlState}
    (hs : Step e mp s s') (h : s.visited.length ≤ mp) :
    s'.visited.length ≤ mp := by
  cases hs with
  | startPage v q1 q2 f c o url =>
      rcases blockA_spec mp url ⟨v, q1 ++ q2, f, c, o⟩ with ⟨_, hq⟩ | ⟨h1, h2, hq⟩ <;>
        rw [hq]
      · exact h
      · simp at h1 ⊢
        omega
  | finishPage v q f1 f2 c o url =>
      rcases blockB_spec e mp url ⟨v, q, f1 ++ f2, c, o⟩ with hq | ⟨ls, hq⟩ <;> rw [hq]
      · exact h
      · rw [foldPL_visited]; exact h
  | startCheck v q1 q2 f c o dom => exact h
  | finishCheck v q f c1 c2 o dom =>
      rcases runCheck_spec e dom ⟨v, q, f, c1 ++ c2, o⟩ with hq | ⟨r, _, hq⟩ <;> rw [hq]
      · exact h
      · exact h

lemma step_budget (e : Web) (mp : Nat) {s s' : CrawlState}
    (hs : Step e mp s s') (h : s.visited.length + pageCount s.queue ≤ mp) :
    s'.visited.length + pageCount s'.queue ≤ mp := by
  cases hs with
  | startPage v q1 q2 f c o url =>
      rcases blockA_spec mp url ⟨v, q1 ++ q2, f, c, o⟩ with ⟨_, hq⟩ | ⟨h1, h2, hq⟩ <;>
        rw [hq] <;>
        simp [pageCount_append, pageCount_cons_page] at h ⊢ <;> omega
  | finishPage v q f1 f2 c o url =>
      rcases blockB_spec e mp url ⟨v, q, f1 ++ f2, c, o⟩ with hq | ⟨ls, hq⟩ <;> rw [hq]
      · exact h
      · exact foldPL_budget e mp url ls ⟨v, q, f1 ++ f2, c, o⟩ h
  | startCheck v q1 q2 f c o dom =>
      simp [pageCount_append, pageCount_cons_check] at h ⊢
      omega
  | finishCheck v q f c1 c2 o dom =>
      rcases runCheck_spec e dom ⟨v, q, f, c1 ++ c2, o⟩ with hq | ⟨r, _, hq⟩ <;> rw [hq]
      · exact h
      · exact h

lemma step_new_page_budget (e : Web) (mp : Nat) {s s' : CrawlState}
    (hs : Step e mp s s') (u : String) :
    CrawlTask.page u ∈ s'.queue →
    CrawlTask.page u ∈ s.queue ∨
      s.visited.length + pageCount s.queue < mp := by
  cases hs with
  | startPage v q1 q2 f c o url =>
      intro hm
      rcases blockA_spec mp url ⟨v, q1 ++ q2, f, c, o⟩ with ⟨_, hq⟩ | ⟨h1, h2, hq⟩ <;>
        rw [hq] at hm
      · exact Or.inl (mem_append_middle _ hm)
      · exact Or.inl (mem_append_middle _ hm)
  | finishPage v q f1 f2 c o url =>
      intro hm
      rcases blockB_spec e mp url ⟨v, q, f1 ++ f2, c, o⟩ with hq | ⟨ls, hq⟩ <;>
        rw [hq] at hm
      · exact Or.inl hm
      · rcases foldPL_new_page e mp url ls ⟨v, q, f1 ++ f2, c, o⟩ u hm with h' | ⟨_, hlt⟩
        · exact Or.inl h'
        · have h3 := pageCount_le_length q
          simp at hlt
          right
          simp
          omega
  | startCheck v q1 q2 f c o dom =>
      intro hm
      exact Or.inl (mem_append_middle _ hm)
  | finishCheck v q f c1 c2 o dom =>
      intro hm
      rcases runCheck_spec e dom ⟨v, q, f, c1 ++ c2, o⟩ with hq | ⟨r, _, hq⟩ <;>
        rw [hq] at hm
      · exact Or.inl hm
      · simp at hm
        exact Or.inl hm

lemma blockA_discard (mp : Nat) (u : String) (s : CrawlState)
    (h : u ∈ s.visited) : blockA mp u s = s := by
  rcases blockA_spec mp u s with ⟨_, hq⟩ | ⟨_, h2, _⟩
  · exact hq
  · exact absurd h h2

lemma reachable_eq {e : Web} {mp : Nat} {seed : String} {s s' : CrawlState}
    (h : Reachable e mp seed s) (heq : s = s') : Reachable e mp seed s' :=
  heq ▸ h

/-! ## Claim C4 (amended) and its counterexample, Claim C9 -/

/-- Claim C4, amended: `visited` never acquires duplicates — every URL is
accepted (fetched) at most once per invocation; a URL that is already
visited is discarded with no effect when its task is dequeued (phase A
refuses it); and a step never enqueues a page task for a URL that is
visited after the step.  (Full disjointness of the queue and `visited`
does not hold: a URL queued twice from two pages stays queued once after
its first copy runs, see the counterexample.) -/
theorem c4_enqueue_time_disjointness (e : Web) (mp : Nat) (seed : String)
    (s : CrawlState) (h : Reachable e mp seed s) :
    s.visited.Nodup
    ∧ (∀ u, u ∈ s.visited → blockA mp u s = s)
    ∧ (∀ s', Step e mp s s' → ∀ u, CrawlTask.page u ∈ s'.queue →
        CrawlTask.page u ∈ s.queue ∨ u ∉ s'.visited) := by
  refine ⟨?_, fun u hu => blockA_discard mp u s hu,
    fun s' hs u hm => step_new_page e mp hs u hm⟩
  induction h with
  | init => exact List.nodup_nil
  | step hr hs ih => exact step_nodup e mp hs ih

/-- A three-page site: the seed links to two pages, each of which links to
the same third page; all links are same-origin.  Exercises the crawl with
no outbound domains. -/
def exWeb : Web :=
  { origin := "https://site.example",
    urlOrigin := fun _ => "https://site.example",
    urlHost := fun _ => "",
    robotsAllowed := fun _ => true,
    fetchPage := fun u =>
      if u = "s" then some ["p1", "p2"]
      else if u = "p1" then some ["l"]
      else if u = "p2" then some ["l"]
      else some [],
    domainResult := fun _ => CheckResult.ok 200 false }

/-- The state reached after crawling `s`, `p1`, `p2` and starting `l`:
the duplicate page task for `l` is still queued while `l` is visited. -/
def overlapState : CrawlState :=
  ⟨["l", "p2", "p1", "s"], [CrawlTask.page "l"], ["l"], [], []⟩

/-- Counterexample to claim C4 as stated: a reachable state in which the
URL `l` is simultaneously in the pending queue and in `visited` (it was
enqueued once from `p1` and once from `p2`, and the first copy ran). -/
theorem c4_pending_visited_overlap :
    Reachable exWeb 10 "s" overlapState ∧
    CrawlTask.page "l" ∈ overlapState.queue ∧ "l" ∈ overlapState.visited := by
  refine ⟨?_, by decide, by decide⟩
  have r0 : Reachable exWeb 10 "s" ⟨[], [CrawlTask.page "s"], [], [], []⟩ :=
    Reachable.init
  have r1 : Reachable exWeb 10 "s" ⟨["s"], [], ["s"], [], []⟩ :=
    reachable_eq (r0.step (Step.startPage [] [] [] [] [] [] "s")) (by decide)
  have r2 : Reachable exWeb 10 "s"
      ⟨["s"], [CrawlTask.page "p1", CrawlTask.page "p2"], [], [], []⟩ :=
    reachable_eq (r1.step (Step.finishPage ["s"] [] [] [] [] [] "s")) (by decide)
  have r3 : Reachable exWeb 10 "s"
      ⟨["p1", "s"], [CrawlTask.page "p2"], ["p1"], [], []⟩ :=
    reachable_eq
      (r2.step (Step.startPage ["s"] [] [CrawlTask.page "p2"] [] [] [] "p1"))
      (by decide)
  have r4 : Reachable exWeb 10 "s"
      ⟨["p1", "s"], [CrawlTask.page "p2", CrawlTask.page "l"], [], [], []⟩ :=
    reachable_eq
      (r3.step (Step.finishPage ["p1", "s"] [CrawlTask.page "p2"] [] [] [] [] "p1"))
      (by decide)
  have r5 : Reachable exWeb 10 "s"
      ⟨["p2", "p1", "s"], [CrawlTask.page "l"], ["p2"], [], []⟩ :=
    reachable_eq
      (r4.step (Step.startPage ["p1", "s"] [] [CrawlTask.page "l"] [] [] [] "p2"))
      (by decide)
  have r6 : Reachable exWeb 10 "s"
      ⟨["p2", "p1", "s"], [CrawlTask.page "l", CrawlTask.page "l"], [], [], []⟩ :=
    reachable_eq
      (r5.step
        (Step.finishPage ["p2", "p1", "s"] [CrawlTask.page "l"] [] [] [] [] "p2"))
      (by decide)
  exact reachable_eq
    (r6.step
      (Step.startPage ["p2", "p1", "s"] [] [CrawlTask.page "l"] [] [] [] "l"))
    (by decide)

/-- Witness for the amended C4 at the initial state of a concrete scan. -/
theorem c4_witness :
    (⟨[], [CrawlTask.page "s"], [], [], []⟩ : CrawlState).visited.Nodup :=
  (c4_enqueue_time_disjointness exWeb 10 "s" _ Reachable.init).1

/-- Claim C9: the batch page budget.  In every reachable state of an
invocation at most `maxPages` URLs are in `visited`; when the budget is
at least one, `visited` plus the queued page tasks stay within the
budget; a step taken with the budget exhausted accepts no URL (visited is
unchanged and no page task is enqueued beyond those already queued); and
any newly enqueued page task was enqueued while `visited` plus queued
page tasks were strictly below the budget. -/
theorem c9_batch_budget (e : Web) (mp : Nat) (seed : String)
    (s : CrawlState) (h : Reachable e mp seed s) :
    s.visited.length ≤ mp
    ∧ (1 ≤ mp → s.visited.length + pageCount s.queue ≤ mp)
    ∧ (∀ s', Step e mp s s' →
        (mp ≤ s.visited.length → s'.visited = s.visited)
        ∧ (∀ u, CrawlTask.page u ∈ s'.queue →
            CrawlTask.page u ∈ s.queue ∨
              s.visited.length + pageCount s.queue < mp)) := by
  refine ⟨?_, ?_, fun s' hs =>
    ⟨fun hf => step_full_frozen e mp hs hf,
     fun u hm => step_new_page_budget e mp hs u hm⟩⟩
  · induction h with
    | init => simp
    | step hr hs ih => exact step_visited_le e mp hs ih
  · intro hmp
    induction h with
    | init => simpa [pageCount] using hmp
    | step hr hs ih => exact step_budget e mp hs ih

/-- Witness for C9 at the initial state of a concrete scan with budget 10. -/
theorem c9_witness :
    (⟨[], [CrawlTask.page "s"], [], [], []⟩ : CrawlState).visited.length ≤ 10 ∧
    (⟨[], [CrawlTask.page "s"], [], [], []⟩ : CrawlState).visited.length +
      pageCount (⟨[], [CrawlTask.page "s"], [], [], []⟩ : CrawlState).queue ≤ 10 :=
  ⟨(c9_batch_budget exWeb 10 "s" _ Reachable.init).1,
   (c9_batch_budget exWeb 10 "s" _ Reachable.init).2.1 (by decide)⟩

/-! ## Occurrence counting for check-task deduplication (Claim C8) -/

/-- Occurrences of a task in a task list. -/
def countT : List CrawlTask → CrawlTask → Nat
  | [], _ => 0
  | t :: ts, a => (if t = a then 1 else 0) + countT ts a

/-- Occurrences of a string in a string list. -/
def countS : List String → String → Nat
  | [], _ => 0
  | x :: xs, a => (if x = a then 1 else 0) + countS xs a

/-- Whether the `foundOutbound` table already has an entry for a domain. -/
def hasDom (o : List (String × OutRec)) (d : String) : Bool :=
  (findRec o d).isSome

/-- Scheduled-but-unfinished check tasks for a domain: queued plus
in flight. -/
def ccount (s : CrawlState) (d : String) : Nat :=
  countT s.queue (CrawlTask.check d) + countS s.checking d

lemma countT_append (a b : List CrawlTask) (t : CrawlTask) :
    countT (a ++ b) t = countT a t + countT b t := by
  induction a with
  | nil => simp [countT]
  | cons x xs ih => simp [countT, ih]; omega

lemma countS_append (a b : List String) (t : String) :
    countS (a ++ b) t = countS a t + countS b t := by
  induction a with
  | nil => simp [countS]
  | cons x xs ih => simp [countS, ih]; omega

lemma hasDom_append_single (o : List (String × OutRec)) (hd d : String)
    (r : OutRec) :
    hasDom (o ++ [(hd, r)]) d = (hasDom o d || decide (hd = d)) := by
  induction o with
  | nil =>
      by_cases h : hd = d <;> simp [hasDom, findRec, h]
  | cons p rest ih =>
      obtain ⟨a, b⟩ := p
      by_cases h : a = d
      · simp [hasDom, findRec, h]
      · simp only [List.cons_append]
        simp [hasDom, findRec, h] at ih ⊢
        exact ih

lemma hasDom_setRec (o : List (String × OutRec)) (dom d : String) (r' : OutRec) :
    hasDom (setRec o dom r') d = hasDom o d := by
  induction o with
  | nil => rfl
  | cons p rest ih =>
      obtain ⟨a, b⟩ := p
      by_cases h1 : a = dom
      · subst h1
        by_cases h2 : a = d
        · subst h2
          simp [hasDom, setRec, findRec]
        · simp [hasDom, setRec, findRec, h2]
      · by_cases h2 : a = d
        · subst h2
          simp [hasDom, setRec, findRec, h1]
        · simp only [setRec, if_neg h1]
          simp only [hasDom, findRec, if_neg h2]
          simpa [hasDom] using ih

lemma findRec_setRec_self (o : List (String × OutRec)) (dom : String)
    (r0 r' : OutRec) (h : findRec o dom = some r0) :
    findRec (setRec o dom r') dom = some r' := by
  induction o with
  | nil => simp [findRec] at h
  | cons p rest ih =>
      obtain ⟨a, b⟩ := p
      by_cases h1 : a = dom
      · simp [setRec, findRec, h1]
      · simp [setRec, findRec, h1] at h ⊢
        exact ih h

lemma findRec_setRec_other (o : List (String × OutRec)) (dom d : String)
    (r' : OutRec) (h : d ≠ dom) :
    findRec (setRec o dom r') d = findRec o d := by
  induction o with
  | nil => rfl
  | cons p rest ih =>
      obtain ⟨a, b⟩ := p
      by_cases h1 : a = dom
      · subst h1
        have h2 : ¬ a = d := fun hc => h hc.symm
        simp [setRec, findRec, h2]
      · by_cases h2 : a = d
        · subst h2
          simp [setRec, findRec, h1]
        · simp [setRec, findRec, h1, h2, ih]

lemma findRec_append_left (o o' : List (String × OutRec)) (d : String)
    (r : OutRec) (h : findRec o d = some r) :
    findRec (o ++ o') d = some r := by
  induction o with
  | nil => simp [findRec] at h
  | cons p rest ih =>
      obtain ⟨a, b⟩ := p
      by_cases h1 : a = d <;> simp [findRec, h1] at h ⊢
      · exact h
      · exact ih h

lemma mem_addUniq (xs : List String) (x a : String) (h : a ∈ xs) :
    a ∈ addUniq xs x := by
  unfold addUniq
  split
  · exact h
  · exact List.mem_append.mpr (Or.inl h)

/-! ## Dedup invariant under link partitioning -/

lemma processLink_hasDom_mono (e : Web) (mp : Nat) (pu : String)
    (s : CrawlState) (l : String) (d : String)
    (h : hasDom s.outbound d = true) :
    hasDom (processLink e mp pu s l).outbound d = true := by
  rcases processLink_spec e mp pu s l with hq | ⟨_, _, hq⟩ | ⟨_, hq⟩ | ⟨r, _, hq⟩ <;>
    rw [hq]
  · exact h
  · exact h
  · simp [hasDom_append_single, h]
  · simpa [hasDom_setRec] using h

lemma processLink_ccount_cases (e : Web) (mp : Nat) (pu : String)
    (s : CrawlState) (l : String) (d : String) :
    (ccount (processLink e mp pu s l) d = ccount s d)
    ∨ (hasDom s.outbound d = false ∧
       hasDom (processLink e mp pu s l).outbound d = true ∧
       ccount (processLink e mp pu s l) d = ccount s d + 1) := by
  rcases processLink_spec e mp pu s l with hq | ⟨_, _, hq⟩ | ⟨hf, hq⟩ | ⟨r, _, hq⟩
  · rw [hq]; exact Or.inl rfl
  · rw [hq]; left
    simp [ccount, countT_append, countT]
  · by_cases hd : e.urlHost l = d
    · subst hd
      refine Or.inr ⟨by simp [hasDom, hf], ?_, ?_⟩
      · rw [hq]
        simp [hasDom_append_single]
      · rw [hq]
        simp [ccount, countT_append, countT]
        omega
    · left
      rw [hq]
      simp [ccount, countT_append, countT, hd]
  · rw [hq]; exact Or.inl rfl

lemma processLink_rec_mono (e : Web) (mp : Nat) (pu : String) (s : CrawlState)
    (l : String) (d : String) (r : OutRec)
    (h : findRec s.outbound d = some r) :
    ∃ r', findRec (processLink e mp pu s l).outbound d = some r' ∧
      (∀ x, x ∈ r.urls → x ∈ r'.urls) ∧ (∀ x, x ∈ r.pages → x ∈ r'.pages) := by
  rcases processLink_spec e mp pu s l with hq | ⟨_, _, hq⟩ | ⟨hf, hq⟩ | ⟨r0, hf0, hq⟩ <;>
    rw [hq]
  · exact ⟨r, h, fun x hx => hx, fun x hx => hx⟩
  · exact ⟨r, h, fun x hx => hx, fun x hx => hx⟩
  · exact ⟨r, findRec_append_left _ _ _ _ h, fun x hx => hx, fun x hx => hx⟩
  · by_cases hd : d = e.urlHost l
    · subst hd
      have hr : r0 = r := by rw [h] at hf0; exact (Option.some_inj.mp hf0).symm
      subst hr
      exact ⟨⟨addUniq r0.urls l, addUniq r0.pages pu, r0.result⟩,
        findRec_setRec_self _ _ _ _ hf0,
        fun x hx => mem_addUniq _ _ _ hx, fun x hx => mem_addUniq _ _ _ hx⟩
    · exact ⟨r, by rw [findRec_setRec_other _ _ _ _ hd]; exact h,
        fun x hx => hx, fun x hx => hx⟩

lemma foldPL_hasDom_mono (e : Web) (mp : Nat) (pu : String) :
    ∀ (ls : List String) (s : CrawlState) (d : String),
      hasDom s.outbound d = true →
      hasDom ((ls.foldl (processLink e mp pu) s)).outbound d = true := by
  intro ls
  induction ls with
  | nil => intro s d h; exact h
  | cons x xs ih =>
      intro s d h
      rw [List.foldl_cons]
      exact ih _ _ (processLink_hasDom_mono e mp pu s x d h)

lemma foldPL_ccount_of_hasDom (e : Web) (mp : Nat) (pu : String) :
    ∀ (ls : List String) (s : CrawlState) (d : String),
      hasDom s.outbound d = true →
      ccount (ls.foldl (processLink e mp pu) s) d = ccount s d := by
  intro ls
  induction ls with
  | nil => intro s d _; rfl
  | cons x xs ih =>
      intro s d h
      rw [List.foldl_cons]
      rcases processLink_ccount_cases e mp pu s x d with hc | ⟨hf, _, _⟩
      · rw [ih _ _ (processLink_hasDom_mono e mp pu s x d h), hc]
      · rw [h] at hf
        exact absurd hf (by simp)

lemma foldPL_ccount_inc (e : Web) (mp : Nat) (pu : String)
    (ls : List String) (s : CrawlState) (d : String)
    (h : ccount s d < ccount (ls.foldl (processLink e mp pu) s) d) :
    hasDom s.outbound d = false := by
  cases hdom : hasDom s.outbound d
  · rfl
  · rw [foldPL_ccount_of_hasDom e mp pu ls s d hdom] at h
    exact absurd h (lt_irrefl _)

lemma foldPL_K (e : Web) (mp : Nat) (pu : String) :
    ∀ (ls : List String) (s : CrawlState) (d : String),
      ccount s d ≤ 1 → (1 ≤ ccount s d → hasDom s.outbound d = true) →
      ccount (ls.foldl (processLink e mp pu) s) d ≤ 1 ∧
      (1 ≤ ccount (ls.foldl (processLink e mp pu) s) d →
        hasDom ((ls.foldl (processLink e mp pu) s)).outbound d = true) := by
  intro ls
  induction ls with
  | nil => intro s d h1 h2; exact ⟨h1, h2⟩
  | cons x xs ih =>
      intro s d h1 h2
      rw [List.foldl_cons]
      rcases processLink_ccount_cases e mp pu s x d with hc | ⟨hf, hdom, hc⟩
      · exact ih _ _ (by omega)
          (fun hge => processLink_hasDom_mono e mp pu s x d (h2 (by omega)))
      · have h0 : ccount s d = 0 := by
          rcases Nat.eq_zero_or_pos (ccount s d) with hz | hp
          · exact hz
          · rw [h2 hp] at hf
            exact absurd hf (by simp)
        exact ih _ _ (by omega) (fun _ => hdom)

lemma foldPL_rec_mono (e : Web) (mp : Nat) (pu : String) :
    ∀ (ls : List String) (s : CrawlState) (d : String) (r : OutRec),
      findRec s.outbound d = some r →
      ∃ r', findRec ((ls.foldl (processLink e mp pu) s)).outbound d = some r' ∧
        (∀ x, x ∈ r.urls → x ∈ r'.urls) ∧ (∀ x, x ∈ r.pages → x ∈ r'.pages) := by
  intro ls
  induction ls with
  | nil => intro s d r h; exact ⟨r, h, fun x hx => hx, fun x hx => hx⟩
  | cons x xs ih =>
      intro s d r h
      rw [List.foldl_cons]
      rcases processLink_rec_mono e mp pu s x d r h with ⟨r1, h1, hu1, hp1⟩
      rcases ih _ _ _ h1 with ⟨r2, h2, hu2, hp2⟩
      exact ⟨r2, h2, fun y hy => hu2 y (hu1 y hy), fun y hy => hp2 y (hp1 y hy)⟩

/-! ## Dedup invariant across scheduler steps -/

lemma blockA_queue (mp : Nat) (u : String) (s : CrawlState) :
    (blockA mp u s).queue = s.queue := by
  rcases blockA_spec mp u s with ⟨_, hq⟩ | ⟨_, _, hq⟩ <;> rw [hq]

lemma blockA_checking (mp : Nat) (u : String) (s : CrawlState) :
    (blockA mp u s).checking = s.checking := by
  rcases blockA_spec mp u s with ⟨_, hq⟩ | ⟨_, _, hq⟩ <;> rw [hq]

lemma blockA_outbound (mp : Nat) (u : String) (s : CrawlState) :
    (blockA mp u s).outbound = s.outbound := by
  rcases blockA_spec mp u s with ⟨_, hq⟩ | ⟨_, _, hq⟩ <;> rw [hq]

lemma ccount_blockA (mp : Nat) (u : String) (s : CrawlState) (d : String) :
    ccount (blockA mp u s) d = ccount s d := by
  simp [ccount, blockA_queue, blockA_checking]

lemma ccount_drop_page (v : List String) (q1 q2 : List CrawlTask)
    (f c : List String) (o : List (String × OutRec)) (url : String) (d : String) :
    ccount ⟨v, q1 ++ q2, f, c, o⟩ d =
      ccount ⟨v, q1 ++ CrawlTask.page url :: q2, f, c, o⟩ d := by
  simp [ccount, countT_append, countT]

lemma ccount_move_check (v : List String) (q1 q2 : List CrawlTask)
    (f c : List String) (o : List (String × OutRec)) (dom : String) (d : String) :
    ccount ⟨v, q1 ++ q2, f, c ++ [dom], o⟩ d =
      ccount ⟨v, q1 ++ CrawlTask.check dom :: q2, f, c, o⟩ d := by
  simp [ccount, countT_append, countS_append, countT, countS]
  by_cases hd : dom = d <;> simp [hd] <;> omega

lemma ccount_drop_check (v : List String) (q : List CrawlTask)
    (f : List String) (c1 c2 : List String) (o : List (String × OutRec))
    (dom : String) (d : String) :
    ccount ⟨v, q, f, c1 ++ c2, o⟩ d ≤
      ccount ⟨v, q, f, c1 ++ dom :: c2, o⟩ d := by
  show countT q (CrawlTask.check d) + countS (c1 ++ c2) d ≤
      countT q (CrawlTask.check d) + countS (c1 ++ dom :: c2) d
  have hc : countS (c1 ++ c2) d ≤ countS (c1 ++ dom :: c2) d := by
    simp only [countS_append, countS]
    by_cases hd : dom = d
    · rw [if_pos hd]; omega
    · rw [if_neg hd]; omega
  omega

lemma step_hasDom_mono (e : Web) (mp : Nat) {s s' : CrawlState}
    (hs : Step e mp s s') (d : String) (h : hasDom s.outbound d = true) :
    hasDom s'.outbound d = true := by
  cases hs with
  | startPage v q1 q2 f c o url =>
      rw [blockA_outbound]
      exact h
  | finishPage v q f1 f2 c o url =>
      rcases blockB_spec e mp url ⟨v, q, f1 ++ f2, c, o⟩ with hq | ⟨ls, hq⟩ <;>
        rw [hq]
      · exact h
      · exact foldPL_hasDom_mono e mp url ls _ d h
  | startCheck v q1 q2 f c o dom => exact h
  | finishCheck v q f c1 c2 o dom =>
      rcases runCheck_spec e dom ⟨v, q, f, c1 ++ c2, o⟩ with hq | ⟨r, _, hq⟩ <;>
        rw [hq]
      · exact h
      · simpa [hasDom_setRec] using h

lemma step_K (e : Web) (mp : Nat) {s s' : CrawlState} (hs : Step e mp s s')
    (d : String) (h1 : ccount s d ≤ 1)
    (h2 : 1 ≤ ccount s d → hasDom s.outbound d = true) :
    ccount s' d ≤ 1 ∧ (1 ≤ ccount s' d → hasDom s'.outbound d = true) := by
  cases hs with
  | startPage v q1 q2 f c o url =>
      have he : ccount (blockA mp url ⟨v, q1 ++ q2, f, c, o⟩) d =
          ccount ⟨v, q1 ++ CrawlTask.page url :: q2, f, c, o⟩ d := by
        rw [ccount_blockA, ccount_drop_page]
      refine ⟨by omega, fun hge => ?_⟩
      rw [blockA_outbound]
      exact h2 (by omega)
  | finishPage v q f1 f2 c o url =>
      rcases blockB_spec e mp url ⟨v, q, f1 ++ f2, c, o⟩ with hq | ⟨ls, hq⟩ <;>
        rw [hq]
      · exact ⟨h1, h2⟩
      · exact foldPL_K e mp url ls ⟨v, q, f1 ++ f2, c, o⟩ d h1 h2
  | startCheck v q1 q2 f c o dom =>
      have he := ccount_move_check v q1 q2 f c o dom d
      exact ⟨by omega, fun hge => h2 (by omega)⟩
  | finishCheck v q f c1 c2 o dom =>
      have hle := ccount_drop_check v q f c1 c2 o dom d
      rcases runCheck_spec e dom ⟨v, q, f, c1 ++ c2, o⟩ with hq | ⟨r, _, hq⟩ <;>
        rw [hq]
      · exact ⟨le_trans hle h1, fun hge => h2 (le_trans hge hle)⟩
      · refine ⟨?_, fun hge => ?_⟩
        · show ccount (⟨v, q, f, c1 ++ c2, o⟩ : CrawlState) d ≤ 1
          exact le_trans hle h1
        · have hge' : 1 ≤ ccount (⟨v, q, f, c1 ++ c2, o⟩ : CrawlState) d := hge
          simpa [hasDom_setRec] using h2 (le_trans hge' hle)

lemma step_ccount_inc (e : Web) (mp : Nat) {s s' : CrawlState}
    (hs : Step e mp s s') (d : String) (h : ccount s d < ccount s' d) :
    hasDom s.outbound d = false := by
  cases hs with
  | startPage v q1 q2 f c o url =>
      have he := ccount_drop_page v q1 q2 f c o url d
      rw [ccount_blockA, he] at h
      exact absurd h (Nat.lt_irrefl _)
  | finishPage v q f1 f2 c o url =>
      rcases blockB_spec e mp url ⟨v, q, f1 ++ f2, c, o⟩ with hq | ⟨ls, hq⟩ <;>
        rw [hq] at h
      · exact absurd h (Nat.lt_irrefl _)
      · exact foldPL_ccount_inc e mp url ls ⟨v, q, f1 ++ f2, c, o⟩ d h
  | startCheck v q1 q2 f c o dom =>
      rw [ccount_move_check] at h
      exact absurd h (Nat.lt_irrefl _)
  | finishCheck v q f c1 c2 o dom =>
      have hle := ccount_drop_check v q f c1 c2 o dom d
      rcases runCheck_spec e dom ⟨v, q, f, c1 ++ c2, o⟩ with hq | ⟨r, _, hq⟩ <;>
        rw [hq] at h
      · exact absurd (Nat.lt_of_lt_of_le h hle) (Nat.lt_irrefl _)
      · have h' : ccount (⟨v, q, f, c1 ++ dom :: c2, o⟩ : CrawlState) d <
            ccount (⟨v, q, f, c1 ++ c2, o⟩ : CrawlState) d := h
        exact absurd (Nat.lt_of_lt_of_le h' hle) (Nat.lt_irrefl _)

lemma step_rec_mono (e : Web) (mp : Nat) {s s' : CrawlState}
    (hs : Step e mp s s') (d : String) (r : OutRec)
    (h : findRec s.outbound d = some r) :
    ∃ r', findRec s'.outbound d = some r' ∧
      (∀ x, x ∈ r.urls → x ∈ r'.urls) ∧ (∀ x, x ∈ r.pages → x ∈ r'.pages) := by
  cases hs with
  | startPage v q1 q2 f c o url =>
      rw [blockA_outbound]
      exact ⟨r, h, fun x hx => hx, fun x hx => hx⟩
  | finishPage v q f1 f2 c o url =>
      rcases blockB_spec e mp url ⟨v, q, f1 ++ f2, c, o⟩ with hq | ⟨ls, hq⟩ <;>
        rw [hq]
      · exact ⟨r, h, fun x hx => hx, fun x hx => hx⟩
      · exact foldPL_rec_mono e mp url ls ⟨v, q, f1 ++ f2, c, o⟩ d r h
  | startCheck v q1 q2 f c o dom =>
      exact ⟨r, h, fun x hx => hx, fun x hx => hx⟩
  | finishCheck v q f c1 c2 o dom =>
      rcases runCheck_spec e dom ⟨v, q, f, c1 ++ c2, o⟩ with hq | ⟨r0, hf0, hq⟩ <;>
        rw [hq]
      · exact ⟨r, h, fun x hx => hx, fun x hx => hx⟩
      · by_cases hd : d = dom
        · subst hd
          have hr : r0 = r := by
            rw [h] at hf0
            exact (Option.some_inj.mp hf0).symm
          subst hr
          exact ⟨⟨r0.urls, r0.pages, some (e.domainResult d)⟩,
            findRec_setRec_self _ _ _ _ hf0, fun x hx => hx, fun x hx => hx⟩
        · exact ⟨r, by rw [findRec_setRec_other _ _ _ _ hd]; exact h,
            fun x hx => hx, fun x hx => hx⟩

/-! ## Claim C8: one liveness check per external hostname per batch -/

/-- Claim C8: in every reachable state, at most one check task per
hostname is scheduled-and-unfinished, and a scheduled check implies the
hostname is in the outbound table; across any step, the outbound table
only grows, a new check task is scheduled only for a hostname not yet in
the table (the first discovery), and an existing hostname's recorded URL
and page sets only grow (later discoveries extend them without
scheduling another check). -/
theorem c8_one_check_per_hostname (e : Web) (mp : Nat) (seed : String)
    (s : CrawlState) (h : Reachable e mp seed s) :
    (∀ d, ccount s d ≤ 1 ∧ (1 ≤ ccount s d → hasDom s.outbound d = true))
    ∧ (∀ s', Step e mp s s' → ∀ d,
        (hasDom s.outbound d = true → hasDom s'.outbound d = true)
        ∧ (ccount s d < ccount s' d → hasDom s.outbound d = false)
        ∧ (∀ r, findRec s.outbound d = some r →
            ∃ r', findRec s'.outbound d = some r' ∧
              (∀ x, x ∈ r.urls → x ∈ r'.urls) ∧
              (∀ x, x ∈ r.pages → x ∈ r'.pages))) := by
  refine ⟨?_, fun s' hs d =>
    ⟨fun hd => step_hasDom_mono e mp hs d hd,
     fun hlt => step_ccount_inc e mp hs d hlt,
     fun r hr => step_rec_mono e mp hs d r hr⟩⟩
  induction h with
  | init =>
      intro d
      refine ⟨?_, ?_⟩ <;> simp [ccount, countT, countS]
  | step hr hs ih =>
      intro d
      exact step_K _ _ hs d (ih d).1 (ih d).2

/-- Witness for C8 at the initial state of a concrete scan. -/
theorem c8_witness :
    ccount ⟨[], [CrawlTask.page "s"], [], [], []⟩ "ext.example" ≤ 1 :=
  ((c8_one_check_per_hostname exWeb 10 "s" _ Reachable.init).1 "ext.example").1

/-! ## Claim C10: final payload of `start()` (worker.js lines 362-375) -/

/-- One element of the array `start()` resolves with. -/
structure DomainReport where
  domain : String
  pages : List String
  sampleUrls : List String
  result : CheckResult
deriving DecidableEq, Repr

/-- The final payload: for each outbound record, the pages, the first five
recorded URLs (`Array.from(v.urls).slice(0, 5)`), and the recorded result
or `{ status: 'pending' }` when no result was recorded
(`v.result || { status: 'pending' }`). -/
def finalizeResults (ob : List (String × OutRec)) : List DomainReport :=
  ob.map (fun p =>
    { domain := p.1, pages := p.2.pages, sampleUrls := p.2.urls.take 5,
      result := p.2.result.getD CheckResult.pending })

/-- Claim C10: every report in the final payload carries at most five
sample URLs; a record whose check never recorded a result is reported
with the `pending` status; and `pending` is never produced by
`checkDomain` itself — it lies outside the classifier's documented
status set. -/
theorem c10_pending_results (ob : List (String × OutRec)) :
    (∀ rep, rep ∈ finalizeResults ob → rep.sampleUrls.length ≤ 5)
    ∧ (∀ d r, (d, r) ∈ ob → r.result = none →
        ({ domain := d, pages := r.pages, sampleUrls := r.urls.take 5,
           result := CheckResult.pending } : DomainReport) ∈ finalizeResults ob)
    ∧ (∀ (denv : DnsEnv) (henv : HttpEnv) (dm : String),
        checkDomain denv henv dm ≠ CheckResult.pending) := by
  refine ⟨?_, ?_, ?_⟩
  · intro rep hrep
    rcases List.mem_map.mp hrep with ⟨p, _, hp⟩
    rw [← hp]
    simpa using List.length_take_le 5 p.2.urls
  · intro d r hmem hres
    have := List.mem_map_of_mem (fun p : String × OutRec =>
      ({ domain := p.1, pages := p.2.pages, sampleUrls := p.2.urls.take 5,
         result := p.2.result.getD CheckResult.pending } : DomainReport)) hmem
    simpa [finalizeResults, hres] using this
  · intro denv henv dm
    cases hd : dnsHasAddresses denv dm with
    | mk hv nv =>
        cases hv <;> cases nv <;> simp [checkDomain, hd] <;>
          cases hf : fetchWithHeuristics henv dm <;> simp [hf]

/-- Witness for C10 on a concrete outbound table with six URLs for one
domain and no recorded result. -/
theorem c10_witness :
    ({ domain := "d1", pages := ["p"],
       sampleUrls := ["u1", "u2", "u3", "u4", "u5"],
       result := CheckResult.pending } : DomainReport) ∈
      finalizeResults
        [("d1", ⟨["u1", "u2", "u3", "u4", "u5", "u6"], ["p"], none⟩)] := by
  have h := (c10_pending_results
      [("d1", ⟨["u1", "u2", "u3", "u4", "u5", "u6"], ["p"], none⟩)]).2.1
    "d1" ⟨["u1", "u2", "u3", "u4", "u5", "u6"], ["p"], none⟩
    (by simp) rfl
  simpa using h

/-! ## Server-side scan lifecycle (Express server: `scheduleResume`,
`POST /scan`, `POST /scan/:id/interrupt`) -/

/-- The remaining-repeat counter: a number, or the string `'infinite'`. -/
inductive RepeatCount where
  | fin (n : Int)
  | infinite
deriving DecidableEq, Repr

/-- The JavaScript comparison `remaining > 0`: numbers compare
numerically; the string `'infinite'` converts to NaN and `NaN > 0` is
false, so the unbounded value never passes this guard. -/
def RepeatCount.isPos : RepeatCount → Bool
  | .fin n => decide (0 < n)
  | .infinite => false

/-- The server's decrement `remaining === 'infinite' ? 'infinite' :
remaining - 1`. -/
def RepeatCount.dec : RepeatCount → RepeatCount
  | .fin n => .fin (n - 1)
  | .infinite => .infinite

/-- The persisted auto-resume policy of a scan document. -/
structure AutoResume where
  enabled : Bool
  delayMinutes : Nat
  remaining : RepeatCount
  batchSize : Nat
  isAggressive : Bool
deriving DecidableEq, Repr

/-- A scan checkpoint document of the `scans` collection. -/
structure ScanDoc where
  website : String
  startUrl : String
  status : String
  queue : List String
  visited : List String
  checkedDomains : Nat
  concurrency : Nat
  autoResume : AutoResume
deriving DecidableEq, Repr

/-- The parameters a crawler invocation is created with. -/
structure CrawlParams where
  startUrl : String
  maxPages : Nat
  concurrency : Nat
  mode : String
deriving DecidableEq, Repr

/-- The body of the `scheduleResume` timer on firing: re-validate that the
scan is still paused, auto-resume still enabled and `remaining > 0`;
when the re-validation passes, decrement the counter, flip status to
`running` and re-invoke the crawl with the stored batch size in resume
mode; otherwise do nothing (`none`). -/
def fireResume (scan : Option ScanDoc) : Option (ScanDoc × CrawlParams) :=
  match scan with
  | none => none
  | some s =>
      if s.status = "paused" ∧ s.autoResume.enabled = true ∧
          s.autoResume.remaining.isPos = true then
        some ({ s with
                status := "running",
                autoResume := { s.autoResume with
                                remaining := s.autoResume.remaining.dec } },
              { startUrl := s.startUrl, maxPages := s.autoResume.batchSize,
                concurrency := s.concurrency, mode := "resume" })
      else none

/-- The condition under which the server arms a resume timer after a
crawler invocation finishes (`status === 'paused' && autoResume.enabled
&& autoResume.remaining > 0`). -/
def shouldScheduleResume (s : ScanDoc) : Bool :=
  s.status == "paused" && s.autoResume.enabled && s.autoResume.remaining.isPos

/-- The `POST /scan/:id/interrupt` handler: with an active crawler it stops
the crawler and writes `status: 'paused'`, `autoResume.enabled: false`;
with no active crawler it answers 404 (`none`). -/
def interruptScan (hasActiveCrawler : Bool) (doc : ScanDoc) : Option ScanDoc :=
  if hasActiveCrawler then
    some { doc with
           status := "paused",
           autoResume := { doc.autoResume with enabled := false } }
  else none

/-- A `POST /scan` request body (with `website` the hostname of
`startUrl`). -/
structure ScanRequest where
  startUrl : String
  website : String
  maxPages : Nat
  concurrency : Nat
  mode : String
  isAggressive : Bool
  arEnabled : Bool
  arDelayMinutes : Nat
  arRepeat : RepeatCount
deriving DecidableEq, Repr

/-- The `POST /scan` handler's state handling: `mode = resume` looks up the
stored document (404 when absent) and only flips its status to `running`;
any other mode deletes the prior document and inserts a fresh one whose
pending queue is exactly the seed URL and whose visited set is empty.
Either way the crawler is invoked in resume mode over the stored
document. -/
def scanEndpoint (store : Option ScanDoc) (req : ScanRequest) :
    Option (ScanDoc × CrawlParams) :=
  if req.mode = "resume" then
    match store with
    | none => none
    | some s =>
        some ({ s with status := "running" },
          { startUrl := s.startUrl, maxPages := req.maxPages,
            concurrency := req.concurrency, mode := "resume" })
  else
    some ({ website := req.website, startUrl := req.startUrl,
            status := "running", queue := [req.startUrl], visited := [],
            checkedDomains := 0, concurrency := req.concurrency,
            autoResume := { enabled := req.arEnabled,
                            delayMinutes := req.arDelayMinutes,
                            remaining := req.arRepeat,
                            batchSize := req.maxPages,
                            isAggressive := req.isAggressive } },
          { startUrl := req.startUrl, maxPages := req.maxPages,
            concurrency := req.concurrency, mode := "resume" })

/-- Modelled from the spec: the Frontier of the resume-capable crawler.
The pause-capable worker (the checkpoint loading and persisting side of
`createCrawler`) is not among the repository's source files here; spec
§4.6 describes it. -/
structure Frontier where
  pending : List String
  visited : List String
deriving DecidableEq, Repr

/-- Modelled from the spec: on `mode = resume` the crawler continues from
the last persisted pending and visited sets of the scan document. -/
def loadFrontier (doc : ScanDoc) : Frontier := ⟨doc.queue, doc.visited⟩

/-- Modelled from the spec: at a checkpoint the batch's working visited
set is merged into the persisted visited set, the updated pending set is
persisted verbatim, and the lifecycle status is written. -/
def persistCheckpoint (doc : ScanDoc) (batchVisited pending : List String)
    (status : String) : ScanDoc :=
  { doc with
    visited := doc.visited ++
      batchVisited.filter (fun u => !(doc.visited.contains u)),
    queue := pending,
    status := status }

/-- Modelled from the spec: after an interrupt the crawler starts no
queued task; only tasks already executing run to completion (spec §4.9:
stop after the current task; §5: cancellation at task-boundary
granularity). -/
inductive StoppedStep (e : Web) (mp : Nat) : CrawlState → CrawlState → Prop where
  | finishPage (v : List String) (q : List CrawlTask) (f1 f2 : List String)
      (c : List String) (o : List (String × OutRec)) (url : String) :
      StoppedStep e mp ⟨v, q, f1 ++ url :: f2, c, o⟩
        (blockB e mp url ⟨v, q, f1 ++ f2, c, o⟩)
  | finishCheck (v : List String) (q : List CrawlTask) (f : List String)
      (c1 c2 : List String) (o : List (String × OutRec)) (dom : String) :
      StoppedStep e mp ⟨v, q, f, c1 ++ dom :: c2, o⟩
        (runCheck e dom ⟨v, q, f, c1 ++ c2, o⟩)

/-! ## Claims C3, C6, C7 -/

/-- Claim C3: `mode = new` ignores (discards) any prior stored state and
seeds a fresh document whose pending queue is exactly the seed URL with
an empty visited set; `mode = resume` returns the stored document with
only its status flipped to `running`, its pending and visited sets
untouched; the spec-modelled checkpoint round-trip: persisting a
mid-batch checkpoint and resuming through the endpoint reconstructs the
Frontier with the persisted pending verbatim and the merged visited
set — the same partition. -/
theorem c3_start_mode_semantics (store : Option ScanDoc) (req : ScanRequest) :
    (req.mode ≠ "resume" →
      (∀ store' : Option ScanDoc, scanEndpoint store req = scanEndpoint store' req)
      ∧ ∃ doc p, scanEndpoint store req = some (doc, p) ∧
          doc.queue = [req.startUrl] ∧ doc.visited = [] ∧ doc.status = "running")
    ∧ (req.mode = "resume" → ∀ s, store = some s →
        scanEndpoint store req =
          some ({ s with status := "running" },
            { startUrl := s.startUrl, maxPages := req.maxPages,
              concurrency := req.concurrency, mode := "resume" }) ∧
        ({ s with status := "running" } : ScanDoc).queue = s.queue ∧
        ({ s with status := "running" } : ScanDoc).visited = s.visited)
    ∧ (∀ (doc : ScanDoc) (bv p : List String) (st : String),
        loadFrontier (persistCheckpoint doc bv p st) =
          ⟨p, doc.visited ++ bv.filter (fun u => !(doc.visited.contains u))⟩)
    ∧ (∀ (doc : ScanDoc) (bv p : List String) (req' : ScanRequest),
        req'.mode = "resume" →
        ∀ doc' prm,
          scanEndpoint (some (persistCheckpoint doc bv p "paused")) req' =
            some (doc', prm) →
          loadFrontier doc' =
            ⟨p, doc.visited ++ bv.filter (fun u => !(doc.visited.contains u))⟩) := by
  refine ⟨?_, ?_, ?_, ?_⟩
  · intro hm
    constructor
    · intro store'
      simp [scanEndpoint, hm]
    · have hEq : scanEndpoint store req =
          some (⟨req.website, req.startUrl, "running", [req.startUrl], [], 0,
                  req.concurrency,
                  ⟨req.arEnabled, req.arDelayMinutes, req.arRepeat,
                   req.maxPages, req.isAggressive⟩⟩,
                ⟨req.startUrl, req.maxPages, req.concurrency, "resume"⟩) := by
        simp [scanEndpoint, hm]
      exact ⟨_, _, hEq, rfl, rfl, rfl⟩
  · intro hm s hst
    subst hst
    exact ⟨by simp [scanEndpoint, hm], rfl, rfl⟩
  · intro doc bv p st
    rfl
  · intro doc bv p req' hm doc' prm h
    simp [scanEndpoint, hm] at h
    obtain ⟨h1, h2⟩ := h
    subst h1
    rfl

/-- A paused scan whose auto-resume counter is the unbounded value. -/
def scanPausedInfinite : ScanDoc :=
  { website := "site.example", startUrl := "https://site.example",
    status := "paused", queue := ["https://site.example/a"], visited := [],
    checkedDomains := 0, concurrency := 5,
    autoResume := { enabled := true, delayMinutes := 1,
                    remaining := RepeatCount.infinite, batchSize := 40,
                    isAggressive := false } }

/-- The same paused scan with two resume repeats remaining. -/
def scanPausedTwo : ScanDoc :=
  { scanPausedInfinite with
    autoResume := { scanPausedInfinite.autoResume with
                    remaining := RepeatCount.fin 2 } }

/-- Claim C6, evaluated at the decisive inputs.  With `remaining = 2` the
fired timer decrements to 1, flips the status to `running` and re-invokes
the crawl with the stored batch size 40 in resume mode; the re-validation
does nothing when the scan is no longer paused or auto-resume was
disabled.  But with the unbounded counter the fired timer does nothing at
all — the guard `remaining > 0` is false for the string `'infinite'` — so
the status never returns to `running`, contradicting the claim's
unbounded case (the dead `'infinite'` branch of the decrement shows the
intended behavior). -/
theorem c6_auto_resume_fire :
    fireResume (some scanPausedInfinite) = none
    ∧ fireResume (some scanPausedTwo) =
        some ({ scanPausedTwo with
                status := "running",
                autoResume := { scanPausedTwo.autoResume with
                                remaining := RepeatCount.fin 1 } },
              { startUrl := "https://site.example", maxPages := 40,
                concurrency := 5, mode := "resume" })
    ∧ fireResume (some { scanPausedTwo with status := "running" }) = none
    ∧ fireResume (some { scanPausedTwo with
        autoResume := { scanPausedTwo.autoResume with enabled := false } }) =
        none := by
  refine ⟨?_, ?_, ?_, ?_⟩ <;> decide

/-- Claim C7: with no active crawler the interrupt answers 404; with an
active crawler the stored document's next state has status `paused` and
`autoResume.enabled = false` whatever the prior policy was (pending and
visited untouched), so neither the post-crawl arming condition nor a
previously armed timer's re-validation can fire a continuation; and the
spec-modelled stopped crawler only completes already-executing tasks — it
accepts no further URL and its in-flight task count strictly drains. -/
theorem c7_interrupt_hard_override (doc : ScanDoc) :
    interruptScan false doc = none
    ∧ (∀ doc', interruptScan true doc = some doc' →
        doc'.status = "paused" ∧ doc'.autoResume.enabled = false
        ∧ doc'.queue = doc.queue ∧ doc'.visited = doc.visited
        ∧ shouldScheduleResume doc' = false
        ∧ fireResume (some doc') = none)
    ∧ (∀ (e : Web) (mp : Nat) (s s' : CrawlState), StoppedStep e mp s s' →
        s'.visited = s.visited ∧
        s'.fetching.length + s'.checking.length + 1 =
          s.fetching.length + s.checking.length) := by
  refine ⟨rfl, ?_, ?_⟩
  · intro doc' h
    simp [interruptScan] at h
    subst h
    refine ⟨rfl, rfl, rfl, rfl, ?_, ?_⟩
    · simp [shouldScheduleResume]
    · simp [fireResume]
  · intro e mp s s' hs
    cases hs with
    | finishPage v q f1 f2 c o url =>
        rcases blockB_spec e mp url ⟨v, q, f1 ++ f2, c, o⟩ with hq | ⟨ls, hq⟩ <;>
          rw [hq]
        · refine ⟨rfl, ?_⟩
          simp
          omega
        · refine ⟨foldPL_visited e mp url ls _, ?_⟩
          rw [foldPL_fetching, foldPL_checking]
          simp
          omega
    | finishCheck v q f c1 c2 o dom =>
        rcases runCheck_spec e dom ⟨v, q, f, c1 ++ c2, o⟩ with hq | ⟨r, _, hq⟩ <;>
          rw [hq] <;> refine ⟨rfl, ?_⟩ <;> simp <;> omega

/-- A concrete running scan with auto-resume fully enabled. -/
def exDoc : ScanDoc :=
  { website := "site.example", startUrl := "https://site.example",
    status := "running", queue := ["https://site.example/a"],
    visited := ["https://site.example"], checkedDomains := 0, concurrency := 5,
    autoResume := { enabled := true, delayMinutes := 5,
                    remaining := RepeatCount.fin 3, batchSize := 100,
                    isAggressive := false } }

/-- Witness for C7: interrupting the concrete running scan leaves a
document on which no timer re-validation can fire. -/
theorem c7_witness :
    fireResume (some { exDoc with
      status := "paused",
      autoResume := { exDoc.autoResume with enabled := false } }) = none :=
  ((c7_interrupt_hard_override exDoc).2.1 _ rfl).2.2.2.2.2

/-- A concrete `mode = new` request. -/
def exReq : ScanRequest :=
  { startUrl := "https://site.example", website := "site.example",
    maxPages := 50, concurrency := 5, mode := "new", isAggressive := false,
    arEnabled := false, arDelayMinutes := 5, arRepeat := RepeatCount.fin 0 }

/-- Witness for C3: a `mode = new` request produces the same fresh state
whether or not a prior document was stored. -/
theorem c3_witness :
    scanEndpoint none exReq = scanEndpoint (some scanPausedTwo) exReq :=
  ((c3_start_mode_semantics none exReq).1 (by decide)).1 (some scanPausedTwo)
